import Mathlib

/-!
# BeyondLink — verification of the point-processing pipeline and ingestion layer

Shallow embedding of the BeyondLink laser-show receiver (C++ sources
`LaserSource.cpp`, `LaserProtocol.cpp`).  Machine `float` values are modelled
as exact rationals (`ℚ`); `int` counters as `ℕ`/`ℤ` as appropriate.  The one
irrational primitive, `std::sqrt`, is abstracted as an explicit function
parameter of the scanner-simulation transform; every theorem that touches it
is quantified over that parameter.
-/

namespace BeyondLink

/-- Modelled from the spec: `LaserPoint.h` is not among the provided sources.
§3 data model: `{X, Y: float; Z: float "beam marker"; R,G,B: float∈[0,1];
Focus: float∈[0,1]}`, floats modelled as `ℚ`. -/
structure LaserPoint where
  X : ℚ
  Y : ℚ
  Z : ℚ
  R : ℚ
  G : ℚ
  B : ℚ
  Focus : ℚ
deriving DecidableEq, Repr, Inhabited

/-- Quality tiers of §3 (`LaserQuality∈{Low,Medium,High,Ultra}`). -/
inductive QualityLevel where
  | Low | Medium | High | Ultra
deriving DecidableEq, Repr, Inhabited

/-- Modelled from the spec: `LaserSettings.h` is not among the provided
sources.  §3 settings snapshot, restricted to the fields the embedded code
reads. -/
structure LaserSettings where
  MaxDevices : ℕ
  ScannerSimulation : Bool
  LaserQuality : QualityLevel
  SampleCount : ℕ
  VelocitySmoothing : ℚ
  EdgeFade : ℚ
  BeamRepeatThreshold : ℕ
  BeamIntensityCount : ℕ
  EnableBeamBrush : Bool
deriving DecidableEq, Repr, Inhabited

namespace LaserPoint

/-- Modelled from the spec: `LaserPoint::IsSamePosition` lives in the missing
`LaserPoint.h`; the spec calls two points "position-equal" when their X and Y
coordinates coincide (§4.3). -/
def isSamePosition (p q : LaserPoint) : Bool :=
  decide (p.X = q.X ∧ p.Y = q.Y)

/-- Modelled from the spec: `LaserPoint::IsBlankPoint` lives in the missing
`LaserPoint.h`; a blank point is one whose laser is off, i.e. all three color
channels are zero (§4.3 "non-blank", glossary "beam"). -/
def isBlankPoint (p : LaserPoint) : Bool :=
  decide (p.R = 0 ∧ p.G = 0 ∧ p.B = 0)

end LaserPoint

/-- The hot-beam run condition of `LaserSource.cpp:296-298`: the current point
has the same position as the previous one and neither is blank.  (The extra
`i < points.size() - 1` conjunct of line 299 is kept at the call site, where
the remaining-list shape is known.) -/
def Qualifies (prev curr : LaserPoint) : Bool :=
  curr.isSamePosition prev && !curr.isBlankPoint && !prev.isBlankPoint

/-- Negation of `Qualifies`, as a relation for `List.Chain'`: a consecutive
pair that can never extend a stationary run. -/
def NQ (prev curr : LaserPoint) : Prop :=
  Qualifies prev curr = false

instance (p q : LaserPoint) : Decidable (NQ p q) :=
  inferInstanceAs (Decidable (Qualifies p q = false))

/-- The Z level written by the inner loop of `LaserSource.cpp:311-314`:
`max(0.0001f, j / (BeamIntensityCount - 1))`. -/
def HotBeamLevel (bic j : ℕ) : ℚ :=
  max (1/10000) ((j : ℚ) / ((bic : ℚ) - 1))

/-- The burst of synthetic points emitted for one detected run
(`LaserSource.cpp:310-316`): `BeamIntensityCount` copies of the run's point
with ascending Z levels. -/
def HotPoints (bic : ℕ) (beamPoint : LaserPoint) : List LaserPoint :=
  (List.range bic).map (fun j => { beamPoint with Z := HotBeamLevel bic j })

/-- Loop state of `LaserSource::GenerateHotBeams`: `run` models the
`beamIndices` vector, dereferenced (it stores the points `points[i-1]` that
the source stores indices of; the only use in the source is
`points[beamIndices.back()]`); `count` is `consecutiveCount`; `out` is the
accumulated `m_HotBeamPoints`. -/
structure GHBState where
  run : List LaserPoint
  count : ℕ
  out : List LaserPoint

/-- The loop of `LaserSource.cpp:292-321`, one step per consecutive pair
`(prev, curr)`.  The source guard `i < points.size() - 1` is `rest ≠ []`
here; the inner `if (i == points.size() - 1)` push of line 304 is kept
verbatim even though it is unreachable under that guard. -/
def GenerateHotBeamsGo (T bic : ℕ) : GHBState → LaserPoint → List LaserPoint → List LaserPoint
  | s, _, [] => s.out
  | s, prev, curr :: rest =>
    if Qualifies prev curr ∧ rest ≠ [] then
      let run1 := s.run ++ [prev]
      let run2 := if rest = [] then run1 ++ [curr] else run1
      GenerateHotBeamsGo T bic ⟨run2, s.count + 1, s.out⟩ curr rest
    else
      let out1 := if T < s.count then s.out ++ HotPoints bic (s.run.getLastD default) else s.out
      GenerateHotBeamsGo T bic ⟨[], 0, out1⟩ curr rest

/-- `LaserSource::GenerateHotBeams` (`LaserSource.cpp:282-322`): clears the
hot-beam list, returns immediately on fewer than two points, otherwise scans
all consecutive pairs.  `T` is `m_Settings.BeamRepeatThreshold`, `bic` is
`m_Settings.BeamIntensityCount`. -/
def GenerateHotBeams (T bic : ℕ) (points : List LaserPoint) : List LaserPoint :=
  match points with
  | p₁ :: p₂ :: rest => GenerateHotBeamsGo T bic ⟨[], 0, []⟩ p₁ (p₂ :: rest)
  | _ => []

/-- Over a stretch in which no consecutive pair qualifies, the loop never
emits and simply discards its (already reset) state. -/
lemma go_of_chain (T bic : ℕ) : ∀ (rest : List LaserPoint) (prev : LaserPoint)
    (out : List LaserPoint), List.Chain' NQ (prev :: rest) →
    GenerateHotBeamsGo T bic ⟨[], 0, out⟩ prev rest = out := by
  intro rest
  induction rest with
  | nil => intro prev out _; rfl
  | cons curr rest' ih =>
    intro prev out h
    rw [List.chain'_cons] at h
    rw [GenerateHotBeamsGo, if_neg, if_neg (Nat.not_lt_zero T)]
    · exact ih curr out h.2
    · intro hcon
      rw [h.1] at hcon
      exact absurd hcon.1 (by simp)

/-- A non-qualifying prefix (ending at the pair just before `q`) passes
through the loop without effect. -/
lemma go_front_pass (T bic : ℕ) : ∀ (xs : List LaserPoint) (x : LaserPoint)
    (out : List LaserPoint) (q : LaserPoint) (rest : List LaserPoint),
    List.Chain' NQ (x :: (xs ++ [q])) →
    GenerateHotBeamsGo T bic ⟨[], 0, out⟩ x (xs ++ q :: rest) =
      GenerateHotBeamsGo T bic ⟨[], 0, out⟩ q rest := by
  intro xs
  induction xs with
  | nil =>
    intro x out q rest h
    rw [List.nil_append] at h
    rw [List.chain'_cons] at h
    rw [List.nil_append, GenerateHotBeamsGo, if_neg, if_neg (Nat.not_lt_zero T)]
    intro hcon
    rw [h.1] at hcon
    exact absurd hcon.1 (by simp)
  | cons x' xs' ih =>
    intro x out q rest h
    rw [List.cons_append] at h
    rw [List.chain'_cons] at h
    rw [List.cons_append, GenerateHotBeamsGo, if_neg, if_neg (Nat.not_lt_zero T)]
    · exact ih x' out q rest h.2
    · intro hcon
      rw [h.1] at hcon
      exact absurd hcon.1 (by simp)

/-- A point equals itself in position, so a pair of copies of a non-blank
point qualifies. -/
lemma qualifies_self (q : LaserPoint) (hq : q.isBlankPoint = false) :
    Qualifies q q = true := by
  simp [Qualifies, LaserPoint.isSamePosition, hq]

/-- Running the loop through a stationary run of `k` qualifying pairs that is
terminated by a non-qualifying pair `(q, r)` before the list end: the counter
reaches `c + k` and is flushed at the terminator. -/
lemma go_run_term (T bic : ℕ) (q r : LaserPoint) (b : List LaserPoint)
    (hq : q.isBlankPoint = false) (hqr : Qualifies q r = false)
    (hb : List.Chain' NQ (r :: b)) :
    ∀ (k : ℕ) (run : List LaserPoint) (c : ℕ) (out : List LaserPoint),
    GenerateHotBeamsGo T bic ⟨run, c, out⟩ q (List.replicate k q ++ r :: b) =
      if T < c + k then
        out ++ HotPoints bic ((run ++ List.replicate k q).getLastD default)
      else out := by
  intro k
  induction k with
  | zero =>
    intro run c out
    rw [List.replicate_zero, List.nil_append, GenerateHotBeamsGo, if_neg]
    · rw [go_of_chain T bic b r _ hb]
      simp
    · intro hcon
      rw [hqr] at hcon
      exact absurd hcon.1 (by simp)
  | succ k ih =>
    intro run c out
    rw [List.replicate_succ, List.cons_append, GenerateHotBeamsGo, if_pos]
    · have hne : List.replicate k q ++ r :: b ≠ [] := by simp
      simp only [if_neg hne]
      show GenerateHotBeamsGo T bic ⟨run ++ [q], c + 1, out⟩ q
          (List.replicate k q ++ r :: b) = _
      rw [ih (run ++ [q]) (c + 1) out]
      have harr : run ++ [q] ++ List.replicate k q = run ++ List.replicate (k + 1) q := by
        rw [List.append_assoc, List.singleton_append, ← List.replicate_succ]
      rw [harr]
      have hc : c + 1 + k = c + (k + 1) := by omega
      rw [hc, List.replicate_succ]
    · exact ⟨qualifies_self q hq, by simp⟩

/-- Running the loop through a stationary run that lasts to the end of the
list: the final pair fails the `i < points.size() - 1` guard, so a run of
`k + 1` trailing pairs is counted as `k` and flushed at the final pair. -/
lemma go_run_end (T bic : ℕ) (q : LaserPoint) (hq : q.isBlankPoint = false) :
    ∀ (k : ℕ) (run : List LaserPoint) (c : ℕ) (out : List LaserPoint),
    GenerateHotBeamsGo T bic ⟨run, c, out⟩ q (List.replicate (k + 1) q) =
      if T < c + k then
        out ++ HotPoints bic ((run ++ List.replicate k q).getLastD default)
      else out := by
  intro k
  induction k with
  | zero =>
    intro run c out
    rw [List.replicate_succ, List.replicate_zero, GenerateHotBeamsGo, if_neg]
    · rw [GenerateHotBeamsGo]
      simp
    · intro hcon
      exact absurd hcon.2 (by simp)
  | succ k ih =>
    intro run c out
    rw [List.replicate_succ, GenerateHotBeamsGo, if_pos]
    · have hne : List.replicate (k + 1) q ≠ [] := by simp
      simp only [if_neg hne]
      show GenerateHotBeamsGo T bic ⟨run ++ [q], c + 1, out⟩ q
          (List.replicate (k + 1) q) = _
      rw [ih (run ++ [q]) (c + 1) out]
      have harr : run ++ [q] ++ List.replicate k q = run ++ List.replicate (k + 1) q := by
        rw [List.append_assoc, List.singleton_append, ← List.replicate_succ]
      rw [harr]
      have hc : c + 1 + k = c + (k + 1) := by omega
      rw [hc]
    · exact ⟨qualifies_self q hq, by simp⟩

/-- Unfolding `GenerateHotBeams` on a list with at least two points. -/
lemma ghb_cons (T bic : ℕ) (p : LaserPoint) (l : List LaserPoint) (hl : l ≠ []) :
    GenerateHotBeams T bic (p :: l) = GenerateHotBeamsGo T bic ⟨[], 0, []⟩ p l := by
  cases l with
  | nil => exact absurd rfl hl
  | cons m M => rfl

/-- A non-qualifying prefix `a` before the run head `q` is skipped by the
whole detector. -/
lemma ghb_skip_front (T bic : ℕ) (a : List LaserPoint) (q : LaserPoint)
    (M : List LaserPoint) (hM : M ≠ [])
    (ha : List.Chain' NQ (a ++ [q])) :
    GenerateHotBeams T bic (a ++ q :: M) =
      GenerateHotBeamsGo T bic ⟨[], 0, []⟩ q M := by
  cases a with
  | nil => rw [List.nil_append]; exact ghb_cons T bic q M hM
  | cons x xs =>
    rw [List.cons_append, ghb_cons T bic x (xs ++ q :: M) (by simp)]
    exact go_front_pass T bic xs x [] q M (by simpa using ha)

lemma hotPoints_length (bic : ℕ) (bp : LaserPoint) :
    (HotPoints bic bp).length = bic := by
  simp [HotPoints]

lemma hotPoints_map_Z (bic : ℕ) (bp : LaserPoint) :
    (HotPoints bic bp).map LaserPoint.Z = (List.range bic).map (HotBeamLevel bic) := by
  simp [HotPoints, List.map_map]

lemma sub_one_pos_of_two_le (bic : ℕ) (h2 : 2 ≤ bic) : (0 : ℚ) < (bic : ℚ) - 1 := by
  have : (2 : ℚ) ≤ (bic : ℚ) := by exact_mod_cast h2
  linarith

/-- The floor epsilon `0.0001` is strictly below `m / (bic - 1)` for every
positive numerator, provided `bic - 1 < 10000`. -/
lemma eps_lt_level (bic : ℕ) (h2 : 2 ≤ bic) (h4 : bic ≤ 10000) (m : ℕ) (hm : 1 ≤ m) :
    (1/10000 : ℚ) < (m : ℚ) / ((bic : ℚ) - 1) := by
  have hd0 : (0 : ℚ) < (bic : ℚ) - 1 := sub_one_pos_of_two_le bic h2
  have hdle : (bic : ℚ) - 1 < 10000 := by
    have : (bic : ℚ) ≤ 10000 := by exact_mod_cast h4
    linarith
  have h1 : (1/10000 : ℚ) < 1 / ((bic : ℚ) - 1) := by
    rw [div_lt_div_iff (by norm_num) hd0]
    linarith
  have h2' : (1 : ℚ) / ((bic : ℚ) - 1) ≤ (m : ℚ) / ((bic : ℚ) - 1) := by
    have hm' : (1 : ℚ) ≤ (m : ℚ) := by exact_mod_cast hm
    exact (div_le_div_right hd0).mpr hm'
  linarith

lemma hotBeamLevel_strict (bic : ℕ) (h2 : 2 ≤ bic) (h4 : bic ≤ 10000)
    (j : ℕ) (hj : j + 1 < bic) :
    HotBeamLevel bic j < HotBeamLevel bic (j + 1) := by
  have hd0 : (0 : ℚ) < (bic : ℚ) - 1 := sub_one_pos_of_two_le bic h2
  unfold HotBeamLevel
  rcases Nat.eq_zero_or_pos j with hj0 | hjpos
  · subst hj0
    have hkey := eps_lt_level bic h2 h4 1 le_rfl
    rw [Nat.cast_one] at hkey
    rw [Nat.cast_zero, zero_div, max_eq_left (by norm_num), Nat.cast_one,
      max_eq_right hkey.le]
    exact hkey
  · have e1 := eps_lt_level bic h2 h4 j hjpos
    have e2 := eps_lt_level bic h2 h4 (j + 1) (by omega)
    rw [max_eq_right e1.le]
    rw [show ((j + 1 : ℕ) : ℚ) = (j : ℚ) + 1 by push_cast; ring] at e2 ⊢
    rw [max_eq_right e2.le, div_lt_div_right hd0]
    linarith

lemma hotBeamLevel_top (bic : ℕ) (h2 : 2 ≤ bic) : HotBeamLevel bic (bic - 1) = 1 := by
  have hd0 : (0 : ℚ) < (bic : ℚ) - 1 := sub_one_pos_of_two_le bic h2
  unfold HotBeamLevel
  rw [Nat.cast_sub (by omega), Nat.cast_one, div_self (ne_of_gt hd0)]
  exact max_eq_right (by norm_num)

/-- The Z markers of a hot-beam burst are strictly increasing. -/
lemma hotPoints_chain (bic : ℕ) (bp : LaserPoint) (h2 : 2 ≤ bic) (h4 : bic ≤ 10000) :
    ((HotPoints bic bp).map LaserPoint.Z).Chain' (· < ·) := by
  obtain ⟨n, rfl⟩ : ∃ n, bic = n + 1 := ⟨bic - 1, by omega⟩
  rw [hotPoints_map_Z, List.chain'_map, List.chain'_range_succ]
  intro m hm
  exact hotBeamLevel_strict (n + 1) h2 h4 m (by omega)

/-- The last Z marker of a hot-beam burst is exactly 1. -/
lemma hotPoints_last_Z (bic : ℕ) (bp : LaserPoint) (h2 : 2 ≤ bic) :
    ((HotPoints bic bp).map LaserPoint.Z).getLast? = some 1 := by
  obtain ⟨n, rfl⟩ : ∃ n, bic = n + 1 := ⟨bic - 1, by omega⟩
  rw [hotPoints_map_Z, List.range_succ]
  simp only [List.map_append, List.map_cons, List.map_nil, List.getLast?_concat]
  have := hotBeamLevel_top (n + 1) h2
  simp only [Nat.add_sub_cancel] at this
  rw [this]

/-- Every point of a hot-beam burst is a copy of the run's point with marker
in `(0, 1]`, floored at the epsilon `0.0001`. -/
lemma hotPoints_mem (bic : ℕ) (bp : LaserPoint) (h2 : 2 ≤ bic) :
    ∀ p ∈ HotPoints bic bp, (1/10000 : ℚ) ≤ p.Z ∧ 0 < p.Z ∧ p.Z ≤ 1 ∧
      p.X = bp.X ∧ p.Y = bp.Y := by
  have hd0 : (0 : ℚ) < (bic : ℚ) - 1 := sub_one_pos_of_two_le bic h2
  intro p hp
  simp only [HotPoints, List.mem_map, List.mem_range] at hp
  obtain ⟨j, hj, rfl⟩ := hp
  refine ⟨le_max_left _ _, lt_of_lt_of_le (by norm_num) (le_max_left _ _), ?_, rfl, rfl⟩
  apply max_le (by norm_num)
  rw [div_le_one hd0]
  have hjq : (j : ℚ) + 1 ≤ (bic : ℚ) := by exact_mod_cast hj
  linarith

lemma replicate_getLastD (x d : LaserPoint) : ∀ k,
    (List.replicate (k + 1) x).getLastD d = x := by
  intro k
  induction k with
  | zero => rfl
  | succ k ih =>
    rw [List.replicate_succ, List.getLastD_cons]
    exact ih

/-- C1: a maximal stationary run of exactly `BeamRepeatThreshold` qualifying
pairs (terminated by a non-qualifying pair before the list end) emits no
hot-beam points, while a run of `BeamRepeatThreshold + 1` such pairs emits
exactly `BeamIntensityCount` points whose beam markers strictly increase and
end at 1.  The run is `q` repeated; `a`/`r :: b` are the surrounding
points, none of whose consecutive pairs qualifies. -/
theorem hotbeam_threshold_boundary (T bic : ℕ) (h2 : 2 ≤ bic) (h4 : bic ≤ 10000)
    (a b : List LaserPoint) (q r : LaserPoint)
    (hq : q.isBlankPoint = false) (hqr : Qualifies q r = false)
    (ha : List.Chain' NQ (a ++ [q])) (hb : List.Chain' NQ (r :: b)) :
    GenerateHotBeams T bic (a ++ q :: (List.replicate T q ++ r :: b)) = [] ∧
    GenerateHotBeams T bic (a ++ q :: (List.replicate (T + 1) q ++ r :: b)) =
      HotPoints bic q ∧
    (HotPoints bic q).length = bic ∧
    ((HotPoints bic q).map LaserPoint.Z).Chain' (· < ·) ∧
    ((HotPoints bic q).map LaserPoint.Z).getLast? = some 1 := by
  refine ⟨?_, ?_, hotPoints_length bic q, hotPoints_chain bic q h2 h4,
    hotPoints_last_Z bic q h2⟩
  · rw [ghb_skip_front T bic a q _ (by simp) ha,
      go_run_term T bic q r b hq hqr hb T [] 0 []]
    simp
  · rw [ghb_skip_front T bic a q _ (by simp) ha,
      go_run_term T bic q r b hq hqr hb (T + 1) [] 0 []]
    rw [if_pos (by omega), List.nil_append, List.nil_append,
      replicate_getLastD q default T]

/-- C2 (amended): a stationary run that ends because the list ends never has
its final pair counted, so emission requires strictly more than
`BeamRepeatThreshold + 1` qualifying pairs: a trailing run of exactly
`BeamRepeatThreshold + 1` pairs emits nothing, while one of
`BeamRepeatThreshold + 2` pairs emits `BeamIntensityCount` points at the
run's stationary position, markers ascending within `(0, 1]` and floored at
the epsilon `0.0001`. -/
theorem hotbeam_endrun_amended (T bic : ℕ) (h2 : 2 ≤ bic) (h4 : bic ≤ 10000)
    (a : List LaserPoint) (q : LaserPoint)
    (hq : q.isBlankPoint = false) (ha : List.Chain' NQ (a ++ [q])) :
    GenerateHotBeams T bic (a ++ q :: List.replicate (T + 1) q) = [] ∧
    GenerateHotBeams T bic (a ++ q :: List.replicate (T + 2) q) =
      HotPoints bic q ∧
    (HotPoints bic q).length = bic ∧
    ((HotPoints bic q).map LaserPoint.Z).Chain' (· < ·) ∧
    (∀ p ∈ HotPoints bic q, (1/10000 : ℚ) ≤ p.Z ∧ 0 < p.Z ∧ p.Z ≤ 1 ∧
      p.X = q.X ∧ p.Y = q.Y) := by
  refine ⟨?_, ?_, hotPoints_length bic q, hotPoints_chain bic q h2 h4,
    hotPoints_mem bic q h2⟩
  · rw [ghb_skip_front T bic a q _ (by simp) ha,
      go_run_end T bic q hq T [] 0 []]
    simp
  · rw [ghb_skip_front T bic a q _ (by simp) ha]
    rw [show T + 2 = (T + 1) + 1 by omega, go_run_end T bic q hq (T + 1) [] 0 []]
    rw [if_pos (by omega), List.nil_append, List.nil_append,
      replicate_getLastD q default T]

/-- Witness for C1 at `T = 1`, `bic = 2`, prefix `[(9,9)]`, run point at the
origin, terminator at `(5,5)`. -/
theorem hotbeam_threshold_boundary_witness :
    ((⟨0,0,0,1,1,1,1⟩ : LaserPoint).isBlankPoint = false ∧
     Qualifies ⟨0,0,0,1,1,1,1⟩ ⟨5,5,0,1,1,1,1⟩ = false ∧
     List.Chain' NQ ([⟨9,9,0,1,0,0,0⟩] ++ [(⟨0,0,0,1,1,1,1⟩ : LaserPoint)]) ∧
     List.Chain' NQ ((⟨5,5,0,1,1,1,1⟩ : LaserPoint) :: [])) ∧
    (GenerateHotBeams 1 2 ([⟨9,9,0,1,0,0,0⟩] ++ ⟨0,0,0,1,1,1,1⟩ ::
        (List.replicate 1 ⟨0,0,0,1,1,1,1⟩ ++ ⟨5,5,0,1,1,1,1⟩ :: [])) = [] ∧
     GenerateHotBeams 1 2 ([⟨9,9,0,1,0,0,0⟩] ++ ⟨0,0,0,1,1,1,1⟩ ::
        (List.replicate (1 + 1) ⟨0,0,0,1,1,1,1⟩ ++ ⟨5,5,0,1,1,1,1⟩ :: [])) =
       HotPoints 2 ⟨0,0,0,1,1,1,1⟩ ∧
     (HotPoints 2 ⟨0,0,0,1,1,1,1⟩).length = 2 ∧
     ((HotPoints 2 ⟨0,0,0,1,1,1,1⟩).map LaserPoint.Z).Chain' (· < ·) ∧
     ((HotPoints 2 ⟨0,0,0,1,1,1,1⟩).map LaserPoint.Z).getLast? = some 1) :=
  by
  have hchain : List.Chain' NQ ([⟨9,9,0,1,0,0,0⟩] ++ [(⟨0,0,0,1,1,1,1⟩ : LaserPoint)]) := by
    simp only [List.cons_append, List.nil_append, List.chain'_pair]
    decide
  have hsing : List.Chain' NQ ((⟨5,5,0,1,1,1,1⟩ : LaserPoint) :: []) := by simp
  exact ⟨⟨by decide, by decide, hchain, hsing⟩,
    hotbeam_threshold_boundary 1 2 (by decide) (by decide)
      [⟨9,9,0,1,0,0,0⟩] [] ⟨0,0,0,1,1,1,1⟩ ⟨5,5,0,1,1,1,1⟩
      (by decide) (by decide) hchain hsing⟩

/-- Witness for the amended C2 at `T = 1`, `bic = 2`, prefix `[(9,9)]`, run
point at the origin. -/
theorem hotbeam_endrun_amended_witness :
    ((⟨0,0,0,1,1,1,1⟩ : LaserPoint).isBlankPoint = false ∧
     List.Chain' NQ ([⟨9,9,0,1,0,0,0⟩] ++ [(⟨0,0,0,1,1,1,1⟩ : LaserPoint)])) ∧
    (GenerateHotBeams 1 2 ([⟨9,9,0,1,0,0,0⟩] ++ ⟨0,0,0,1,1,1,1⟩ ::
        List.replicate (1 + 1) ⟨0,0,0,1,1,1,1⟩) = [] ∧
     GenerateHotBeams 1 2 ([⟨9,9,0,1,0,0,0⟩] ++ ⟨0,0,0,1,1,1,1⟩ ::
        List.replicate (1 + 2) ⟨0,0,0,1,1,1,1⟩) = HotPoints 2 ⟨0,0,0,1,1,1,1⟩ ∧
     (HotPoints 2 ⟨0,0,0,1,1,1,1⟩).length = 2 ∧
     ((HotPoints 2 ⟨0,0,0,1,1,1,1⟩).map LaserPoint.Z).Chain' (· < ·) ∧
     (∀ p ∈ HotPoints 2 ⟨0,0,0,1,1,1,1⟩, (1/10000 : ℚ) ≤ p.Z ∧ 0 < p.Z ∧
       p.Z ≤ 1 ∧ p.X = (⟨0,0,0,1,1,1,1⟩ : LaserPoint).X ∧
       p.Y = (⟨0,0,0,1,1,1,1⟩ : LaserPoint).Y)) :=
  by
  have hchain : List.Chain' NQ ([⟨9,9,0,1,0,0,0⟩] ++ [(⟨0,0,0,1,1,1,1⟩ : LaserPoint)]) := by
    simp only [List.cons_append, List.nil_append, List.chain'_pair]
    decide
  exact ⟨⟨by decide, hchain⟩,
    hotbeam_endrun_amended 1 2 (by decide) (by decide)
      [⟨9,9,0,1,0,0,0⟩] ⟨0,0,0,1,1,1,1⟩ (by decide) hchain⟩

/-- The loop of `LaserSource::DownsamplePoints` (`LaserSource.cpp:267-271`):
`for (i = 0; i < points.size(); i += factor) push(points[i])`.  The
`0 < factor` conjunct only justifies termination; the function is invoked
with `factor ≥ 2` exclusively. -/
def DownsampleGo (points : List LaserPoint) (factor : ℕ) (i : ℕ) : List LaserPoint :=
  if h : i < points.length ∧ 0 < factor then
    points.get ⟨i, h.1⟩ :: DownsampleGo points factor (i + factor)
  else []
termination_by points.length - i
decreasing_by omega

/-- `LaserSource::DownsamplePoints` (`LaserSource.cpp:258-274`): identity for
`factor ≤ 1` or an empty list, else every `factor`-th point from index 0. -/
def DownsamplePoints (points : List LaserPoint) (factor : ℕ) : List LaserPoint :=
  if factor ≤ 1 ∨ points = [] then points
  else DownsampleGo points factor 0

lemma downsampleGo_eq (points : List LaserPoint) (factor : ℕ) (hf : 0 < factor) :
    ∀ (m i : ℕ), points.length - i ≤ m →
      DownsampleGo points factor i =
        (List.range ((points.length - i + factor - 1) / factor)).map
          (fun j => points.getD (i + j * factor) default) := by
  intro m
  induction m with
  | zero =>
    intro i hi
    rw [DownsampleGo, dif_neg (by rintro ⟨h1, -⟩; omega)]
    have h0 : points.length - i = 0 := by omega
    rw [h0, Nat.zero_add, Nat.div_eq_of_lt (by omega), List.range_zero, List.map_nil]
  | succ m ih =>
    intro i hi
    by_cases h : i < points.length
    · rw [DownsampleGo, dif_pos ⟨h, hf⟩, ih (i + factor) (by omega)]
      have key : (points.length - (i + factor) + factor - 1) / factor =
          (points.length - i - 1) / factor := by
        rcases le_or_lt factor (points.length - i) with hc | hc
        · rw [show points.length - (i + factor) + factor - 1 =
            points.length - i - 1 from by omega]
        · rw [show points.length - (i + factor) = 0 from by omega, Nat.zero_add,
            Nat.div_eq_of_lt (by omega), Nat.div_eq_of_lt (by omega)]
      have key2 : (points.length - i + factor - 1) / factor =
          (points.length - i - 1) / factor + 1 := by
        rw [show points.length - i + factor - 1 =
          (points.length - i - 1) + factor from by omega, Nat.add_div_right _ hf]
      rw [key, key2, List.range_succ_eq_map, List.map_cons, List.map_map]
      congr 1
      · rw [Nat.zero_mul, Nat.add_zero, List.get_eq_getElem,
          List.getD_eq_getElem points default h]
      · apply List.map_congr_left
        intro j _
        simp only [Function.comp_apply]
        congr 1
        rw [Nat.succ_eq_add_one]
        ring
    · rw [DownsampleGo, dif_neg (by rintro ⟨h1, -⟩; exact h h1)]
      rw [show points.length - i = 0 from by omega, Nat.zero_add,
        Nat.div_eq_of_lt (by omega), List.range_zero, List.map_nil]

/-- C6: downsampling with factor 1 is the identity; with factor `k ≥ 2` it
keeps exactly the points at indices `0, k, 2k, …`, has length `⌈n/k⌉`, and
always retains the point at index 0 of a non-empty list. -/
theorem downsample_spec (points : List LaserPoint) (k : ℕ) :
    DownsamplePoints points 1 = points ∧
    (2 ≤ k →
      DownsamplePoints points k =
        (List.range ((points.length + k - 1) / k)).map
          (fun j => points.getD (j * k) default) ∧
      (DownsamplePoints points k).length = (points.length + k - 1) / k ∧
      (points ≠ [] →
        (DownsamplePoints points k).getD 0 default = points.getD 0 default)) := by
  constructor
  · simp [DownsamplePoints]
  · intro hk
    have hcf : DownsamplePoints points k =
        (List.range ((points.length + k - 1) / k)).map
          (fun j => points.getD (j * k) default) := by
      by_cases hp : points = []
      · subst hp
        rw [show (([] : List LaserPoint).length + k - 1) / k = 0 from
          Nat.div_eq_of_lt (by simp; omega)]
        simp [DownsamplePoints]
      · have hcond : ¬(k ≤ 1 ∨ points = []) := by
          rintro (h1 | h2)
          · omega
          · exact hp h2
        rw [DownsamplePoints, if_neg hcond,
          downsampleGo_eq points k (by omega) points.length 0 (by omega)]
        simp
    refine ⟨hcf, ?_, ?_⟩
    · rw [hcf]; simp
    · intro hp
      rw [hcf]
      have hlen : 1 ≤ (points.length + k - 1) / k := by
        rw [Nat.le_div_iff_mul_le (by omega)]
        have : 1 ≤ points.length := List.length_pos.mpr hp
        omega
      obtain ⟨c, hc⟩ : ∃ c, (points.length + k - 1) / k = c + 1 :=
        ⟨(points.length + k - 1) / k - 1, by omega⟩
      rw [hc, List.range_succ_eq_map, List.map_cons, List.getD_cons_zero,
        Nat.zero_mul]

/-- Witness for C6 on a three-point list with factor 2. -/
theorem downsample_spec_witness :
    (2 ≤ 2 ∧
      ([⟨0,0,0,0,0,0,0⟩, ⟨1,0,0,0,0,0,0⟩, ⟨2,0,0,0,0,0,0⟩] : List LaserPoint) ≠ []) ∧
    (DownsamplePoints [⟨0,0,0,0,0,0,0⟩, ⟨1,0,0,0,0,0,0⟩, ⟨2,0,0,0,0,0,0⟩] 2).length = 2 ∧
    (DownsamplePoints [⟨0,0,0,0,0,0,0⟩, ⟨1,0,0,0,0,0,0⟩, ⟨2,0,0,0,0,0,0⟩] 2).getD 0 default =
      ([⟨0,0,0,0,0,0,0⟩, ⟨1,0,0,0,0,0,0⟩, ⟨2,0,0,0,0,0,0⟩] : List LaserPoint).getD 0 default :=
  ⟨⟨le_rfl, by decide⟩,
   ((downsample_spec [⟨0,0,0,0,0,0,0⟩, ⟨1,0,0,0,0,0,0⟩, ⟨2,0,0,0,0,0,0⟩] 2).2 le_rfl).2.1,
   ((downsample_spec [⟨0,0,0,0,0,0,0⟩, ⟨1,0,0,0,0,0,0⟩, ⟨2,0,0,0,0,0,0⟩] 2).2 le_rfl).2.2
     (by decide)⟩

/-- `LaserSource::RemoveDuplicatePoints` (`LaserSource.cpp:332-348`): keeps
the first point, then appends each point whose position differs from the
last kept one (`result.back()`, modelled as `getLastD` — the accumulator is
never empty). -/
def RemoveDuplicatePoints (points : List LaserPoint) : List LaserPoint :=
  match points with
  | [] => []
  | p :: rest =>
    rest.foldl (fun result pt =>
      if !pt.isSamePosition (result.getLastD default) then result ++ [pt]
      else result) [p]

lemma rdp_foldl_inv (rest : List LaserPoint) :
    ∀ acc : List LaserPoint, acc ≠ [] →
      List.Chain' (fun a b => b.isSamePosition a = false) acc →
      (rest.foldl (fun result pt =>
        if !pt.isSamePosition (result.getLastD default) then result ++ [pt]
        else result) acc) ≠ [] ∧
      (rest.foldl (fun result pt =>
        if !pt.isSamePosition (result.getLastD default) then result ++ [pt]
        else result) acc).headD default = acc.headD default ∧
      (rest.foldl (fun result pt =>
        if !pt.isSamePosition (result.getLastD default) then result ++ [pt]
        else result) acc).length ≤ acc.length + rest.length ∧
      List.Chain' (fun a b => b.isSamePosition a = false)
        (rest.foldl (fun result pt =>
          if !pt.isSamePosition (result.getLastD default) then result ++ [pt]
          else result) acc) := by
  induction rest with
  | nil =>
    intro acc hacc hchain
    exact ⟨hacc, rfl, by simp, hchain⟩
  | cons pt rest' ih =>
    intro acc hacc hchain
    rw [List.foldl_cons]
    cases hb : pt.isSamePosition (acc.getLastD default) with
    | true =>
      simp only [Bool.not_true, Bool.false_eq_true, if_false]
      obtain ⟨h1, h2, h3, h4⟩ := ih acc hacc hchain
      exact ⟨h1, h2, by simpa using Nat.le_succ_of_le h3, h4⟩
    | false =>
      simp only [Bool.not_false, if_true]
      have hne : acc ++ [pt] ≠ [] := by simp
      have hch : List.Chain' (fun a b => b.isSamePosition a = false) (acc ++ [pt]) := by
        rw [List.chain'_append]
        refine ⟨hchain, by simp, ?_⟩
        intro x hx y hy
        rw [List.head?_cons, Option.mem_def, Option.some_inj] at hy
        rw [Option.mem_def] at hx
        have hgl : acc.getLastD default = x := by
          rw [List.getLastD_eq_getLast?, hx]
          rfl
        subst hy
        rw [← hgl]
        exact hb
      obtain ⟨h1, h2, h3, h4⟩ := ih (acc ++ [pt]) hne hch
      refine ⟨h1, ?_, ?_, h4⟩
      · rw [h2]
        cases acc with
        | nil => exact absurd rfl hacc
        | cons a t => simp
      · refine le_trans h3 ?_
        have hl : (acc ++ [pt]).length = acc.length + 1 := by simp
        rw [hl, List.length_cons]
        omega

/-- C7: removing position-adjacent duplicates never lengthens the list,
keeps the first point, and leaves no adjacent pair at equal positions. -/
theorem removeDuplicates_spec (points : List LaserPoint) :
    (RemoveDuplicatePoints points).length ≤ points.length ∧
    (points ≠ [] →
      (RemoveDuplicatePoints points).headD default = points.headD default) ∧
    List.Chain' (fun a b => b.isSamePosition a = false)
      (RemoveDuplicatePoints points) := by
  cases points with
  | nil =>
    exact ⟨by simp [RemoveDuplicatePoints], fun h => absurd rfl h,
      by simp [RemoveDuplicatePoints]⟩
  | cons p rest =>
    obtain ⟨h1, h2, h3, h4⟩ := rdp_foldl_inv rest [p] (by simp) (by simp)
    refine ⟨?_, fun _ => ?_, h4⟩
    · show (rest.foldl _ [p]).length ≤ (p :: rest).length
      simpa [Nat.add_comm] using h3
    · show (rest.foldl _ [p]).headD default = (p :: rest).headD default
      simpa using h2

/-- Witness for C7 on a list with a duplicated position. -/
theorem removeDuplicates_spec_witness :
    (([⟨0,0,0,1,1,1,1⟩, ⟨0,0,0,1,1,1,1⟩, ⟨3,4,0,1,1,1,1⟩] : List LaserPoint) ≠ []) ∧
    (RemoveDuplicatePoints [⟨0,0,0,1,1,1,1⟩, ⟨0,0,0,1,1,1,1⟩, ⟨3,4,0,1,1,1,1⟩]).length ≤
      ([⟨0,0,0,1,1,1,1⟩, ⟨0,0,0,1,1,1,1⟩, ⟨3,4,0,1,1,1,1⟩] : List LaserPoint).length ∧
    (RemoveDuplicatePoints [⟨0,0,0,1,1,1,1⟩, ⟨0,0,0,1,1,1,1⟩, ⟨3,4,0,1,1,1,1⟩]).headD default =
      ([⟨0,0,0,1,1,1,1⟩, ⟨0,0,0,1,1,1,1⟩, ⟨3,4,0,1,1,1,1⟩] : List LaserPoint).headD default ∧
    List.Chain' (fun a b => b.isSamePosition a = false)
      (RemoveDuplicatePoints [⟨0,0,0,1,1,1,1⟩, ⟨0,0,0,1,1,1,1⟩, ⟨3,4,0,1,1,1,1⟩]) :=
  ⟨by decide,
   (removeDuplicates_spec [⟨0,0,0,1,1,1,1⟩, ⟨0,0,0,1,1,1,1⟩, ⟨3,4,0,1,1,1,1⟩]).1,
   (removeDuplicates_spec [⟨0,0,0,1,1,1,1⟩, ⟨0,0,0,1,1,1,1⟩, ⟨3,4,0,1,1,1,1⟩]).2.1
     (by decide),
   (removeDuplicates_spec [⟨0,0,0,1,1,1,1⟩, ⟨0,0,0,1,1,1,1⟩, ⟨3,4,0,1,1,1,1⟩]).2.2⟩

/-- C2 counterexample: with `BeamRepeatThreshold = 1` and
`BeamIntensityCount = 2`, three copies of a non-blank point form a trailing
stationary run of 2 qualifying pairs — strictly more than the threshold — yet
the detector emits nothing, because the list-end pair is excluded by the
`i < points.size() - 1` guard; the claim demands a burst of
`BeamIntensityCount` points here. -/
theorem hotbeam_endrun_cex :
    GenerateHotBeams 1 2 [⟨0,0,0,1,1,1,1⟩, ⟨0,0,0,1,1,1,1⟩, ⟨0,0,0,1,1,1,1⟩] = [] ∧
    (HotPoints 2 ⟨0,0,0,1,1,1,1⟩).length = 2 := by
  exact ⟨by decide, by simp [HotPoints]⟩

/-- One decoded wire sample of the opaque decoder's output
(`LaserProtocol.cpp:525-534`): 6 floats per point, in this order. -/
structure RawSample where
  X : ℚ
  Y : ℚ
  Focus : ℚ
  R : ℚ
  G : ℚ
  B : ℚ
deriving DecidableEq, Repr, Inhabited

/-- The color/Focus transform of `LaserProtocol::ParsePacket`
(`LaserProtocol.cpp:536-550`): divide the colors by 255 when any channel
exceeds 1, clamp colors to `[0,1]`, and always clamp Focus to `[0,255]` and
divide it by 255.  Returns `(R, G, B, Focus)`. -/
def decodeSampleColor (smp : RawSample) : ℚ × ℚ × ℚ × ℚ :=
  let scaled :=
    if smp.R > 1 ∨ smp.G > 1 ∨ smp.B > 1 then
      (smp.R / 255, smp.G / 255, smp.B / 255)
    else (smp.R, smp.G, smp.B)
  (max 0 (min 1 scaled.1), max 0 (min 1 scaled.2.1), max 0 (min 1 scaled.2.2),
    max 0 (min 255 smp.Focus) / 255)

/-- The back-assignment of `LaserProtocol.cpp:557-562`: write the decoded
color/Focus into `points[points.size() - 2]`, the point before the one just
pushed. -/
def assignColorToPrev (acc : List LaserPoint) (c : ℚ × ℚ × ℚ × ℚ) :
    List LaserPoint :=
  acc.set (acc.length - 2)
    { acc.getD (acc.length - 2) default with
      R := c.1, G := c.2.1, B := c.2.2.1, Focus := c.2.2.2 }

/-- The decode loop of `LaserProtocol.cpp:527-563`: for sample `i`, push a
point at `(X, -Y)` with zero color, then (when `i > 0`) assign the decoded
color/Focus to the previous point. -/
def ParseLoop : List RawSample → ℕ → List LaserPoint → List LaserPoint
  | [], _, acc => acc
  | smp :: rest, i, acc =>
    let c := decodeSampleColor smp
    let acc1 := acc ++ [⟨smp.X, -smp.Y, 0, 0, 0, 0, 0⟩]
    let acc2 := if 0 < i then assignColorToPrev acc1 c else acc1
    ParseLoop rest (i + 1) acc2

/-- The point list `LaserProtocol::ParsePacket` builds from the decoder's
samples. -/
def ParsePoints (samples : List RawSample) : List LaserPoint :=
  ParseLoop samples 0 []

/-- The specified shape of the decoded list (spec §4.2): point `i` carries
the position of sample `i` with Y sign-inverted and the color/Focus decoded
alongside sample `i + 1`; the final point's color/Focus are zero. -/
def SpecLaggedPoints (samples : List RawSample) : List LaserPoint :=
  (List.range samples.length).map (fun i =>
    let s := samples.getD i default
    let c := if i + 1 < samples.length then
        decodeSampleColor (samples.getD (i + 1) default)
      else (0, 0, 0, 0)
    ⟨s.X, -s.Y, 0, c.1, c.2.1, c.2.2.1, c.2.2.2⟩)

/-- Tail-recursive view of the decode loop: the pending last point receives
the next sample's color, then the next blank point is pushed. -/
def BuildFrom (pending : LaserPoint) : List RawSample → List LaserPoint
  | [] => [pending]
  | smp :: rest =>
    let c := decodeSampleColor smp
    { pending with R := c.1, G := c.2.1, B := c.2.2.1, Focus := c.2.2.2 } ::
      BuildFrom ⟨smp.X, -smp.Y, 0, 0, 0, 0, 0⟩ rest

lemma set_append_len (A l : List LaserPoint) (v : LaserPoint) :
    (A ++ l).set A.length v = A ++ l.set 0 v := by
  induction A with
  | nil => rfl
  | cons a A ih =>
    show a :: (A ++ l).set A.length v = a :: (A ++ l.set 0 v)
    rw [ih]

lemma getD_append_len (A l : List LaserPoint) (d : LaserPoint) :
    (A ++ l).getD A.length d = l.getD 0 d := by
  induction A with
  | nil => rfl
  | cons a A ih => exact ih

lemma parseLoop_eq (rest : List RawSample) :
    ∀ (i : ℕ) (A : List LaserPoint) (last : LaserPoint), 0 < i →
      ParseLoop rest i (A ++ [last]) = A ++ BuildFrom last rest := by
  induction rest with
  | nil => intro i A last _; rfl
  | cons smp rest' ih =>
    intro i A last hi
    rw [ParseLoop]
    simp only [if_pos hi]
    have hshape : (A ++ [last]) ++ [(⟨smp.X, -smp.Y, 0, 0, 0, 0, 0⟩ : LaserPoint)] =
        A ++ [last, ⟨smp.X, -smp.Y, 0, 0, 0, 0, 0⟩] := by
      rw [List.append_assoc]; rfl
    have hlen : (A ++ [last, (⟨smp.X, -smp.Y, 0, 0, 0, 0, 0⟩ : LaserPoint)]).length - 2 =
        A.length := by simp
    show ParseLoop rest' (i + 1)
        (assignColorToPrev ((A ++ [last]) ++ [⟨smp.X, -smp.Y, 0, 0, 0, 0, 0⟩])
          (decodeSampleColor smp)) = _
    rw [hshape]
    rw [show assignColorToPrev (A ++ [last, ⟨smp.X, -smp.Y, 0, 0, 0, 0, 0⟩])
          (decodeSampleColor smp) =
        (A ++ [{ last with
            R := (decodeSampleColor smp).1, G := (decodeSampleColor smp).2.1,
            B := (decodeSampleColor smp).2.2.1,
            Focus := (decodeSampleColor smp).2.2.2 }]) ++
          [⟨smp.X, -smp.Y, 0, 0, 0, 0, 0⟩] from by
      rw [assignColorToPrev, hlen, set_append_len, getD_append_len]
      simp]
    rw [ih (i + 1) _ _ (by omega), BuildFrom]
    simp

lemma parsePoints_cons (smp : RawSample) (rest : List RawSample) :
    ParsePoints (smp :: rest) =
      BuildFrom ⟨smp.X, -smp.Y, 0, 0, 0, 0, 0⟩ rest := by
  show ParseLoop rest 1 ([] ++ [(⟨smp.X, -smp.Y, 0, 0, 0, 0, 0⟩ : LaserPoint)]) = _
  rw [parseLoop_eq rest 1 [] _ (by omega), List.nil_append]

lemma specLagged_cons (s : RawSample) (rest : List RawSample) :
    SpecLaggedPoints (s :: rest) =
      (let c := if 0 + 1 < (s :: rest).length then
          decodeSampleColor ((s :: rest).getD (0 + 1) default) else (0, 0, 0, 0)
       (⟨s.X, -s.Y, 0, c.1, c.2.1, c.2.2.1, c.2.2.2⟩ : LaserPoint)) ::
        SpecLaggedPoints rest := by
  rw [SpecLaggedPoints, SpecLaggedPoints]
  simp only [List.length_cons, List.range_succ_eq_map, List.map_cons, List.map_map]
  congr 1
  apply List.map_congr_left
  intro j _
  simp only [Function.comp_apply, List.getD_cons_succ,
    show (j + 1 + 1 < rest.length + 1) = (j + 1 < rest.length) from by
      apply propext; omega]

lemma buildFrom_eq_spec (rest : List RawSample) :
    ∀ s : RawSample,
      BuildFrom ⟨s.X, -s.Y, 0, 0, 0, 0, 0⟩ rest = SpecLaggedPoints (s :: rest) := by
  induction rest with
  | nil =>
    intro s
    rw [specLagged_cons]
    simp [BuildFrom, SpecLaggedPoints]
  | cons s2 rest2 ih =>
    intro s
    rw [BuildFrom, specLagged_cons, ih s2]
    congr 1
    simp

/-- C4: the decoded list refines the spec's lag description — point `i` has
sample `i`'s position with Y sign-inverted and carries the color/Focus
decoded alongside sample `i + 1`, the last point's color/Focus being zero —
and the spec's three-sample example decodes exactly as stated. -/
theorem parse_lag_spec (samples : List RawSample) :
    ParsePoints samples = SpecLaggedPoints samples ∧
    ParsePoints [⟨0,0,0,0,0,0⟩, ⟨10,0,0,0,255,0⟩, ⟨10,10,0,255,0,0⟩] =
      [⟨0,0,0,0,1,0,0⟩, ⟨10,0,0,1,0,0,0⟩, ⟨10,-10,0,0,0,0,0⟩] := by
  constructor
  · cases samples with
    | nil => rfl
    | cons s rest => rw [parsePoints_cons, buildFrom_eq_spec]
  · have hgen : ParsePoints [⟨0,0,0,0,0,0⟩, ⟨10,0,0,0,255,0⟩, ⟨10,10,0,255,0,0⟩] =
        SpecLaggedPoints [⟨0,0,0,0,0,0⟩, ⟨10,0,0,0,255,0⟩, ⟨10,10,0,255,0,0⟩] := by
      rw [parsePoints_cons, buildFrom_eq_spec]
    rw [hgen]
    norm_num [SpecLaggedPoints, decodeSampleColor, List.range_succ, min_def, max_def]

/-- C3 (amended): the divide-by-255 normalization applies to the three color
channels exactly when some channel exceeds 1 — in-range colors pass through
unscaled — but Focus is always clamped to `[0, 255]` and divided by 255,
regardless of the color channels. -/
theorem color_normalization_amended (smp : RawSample) :
    (0 ≤ smp.R ∧ smp.R ≤ 1 ∧ 0 ≤ smp.G ∧ smp.G ≤ 1 ∧ 0 ≤ smp.B ∧ smp.B ≤ 1 →
      (decodeSampleColor smp).1 = smp.R ∧ (decodeSampleColor smp).2.1 = smp.G ∧
        (decodeSampleColor smp).2.2.1 = smp.B) ∧
    (1 < smp.R ∨ 1 < smp.G ∨ 1 < smp.B →
      (decodeSampleColor smp).1 = max 0 (min 1 (smp.R / 255)) ∧
      (decodeSampleColor smp).2.1 = max 0 (min 1 (smp.G / 255)) ∧
      (decodeSampleColor smp).2.2.1 = max 0 (min 1 (smp.B / 255))) ∧
    (decodeSampleColor smp).2.2.2 = max 0 (min 255 smp.Focus) / 255 := by
  refine ⟨?_, ?_, rfl⟩
  · rintro ⟨h1, h2, h3, h4, h5, h6⟩
    have hcond : ¬(smp.R > 1 ∨ smp.G > 1 ∨ smp.B > 1) := by
      push_neg
      exact ⟨h2, h4, h6⟩
    simp only [decodeSampleColor, if_neg hcond]
    exact ⟨by rw [min_eq_right h2, max_eq_right h1],
      by rw [min_eq_right h4, max_eq_right h3],
      by rw [min_eq_right h6, max_eq_right h5]⟩
  · intro h
    simp only [decodeSampleColor, if_pos h]
    simp

/-- Witness for the amended C3 at the spec's `R = 200` sample (other
channels at most 1): all three channels are divided by 255 and clamped. -/
theorem color_normalization_amended_witness :
    ((1:ℚ) < 200 ∨ (1:ℚ) < 1 ∨ (1:ℚ) < 0) ∧
    ((decodeSampleColor ⟨0, 0, 127, 200, 1, 0⟩).1 = max 0 (min 1 ((200:ℚ) / 255)) ∧
     (decodeSampleColor ⟨0, 0, 127, 200, 1, 0⟩).2.1 = max 0 (min 1 ((1:ℚ) / 255)) ∧
     (decodeSampleColor ⟨0, 0, 127, 200, 1, 0⟩).2.2.1 = max 0 (min 1 ((0:ℚ) / 255))) :=
  ⟨Or.inl (by norm_num),
   (color_normalization_amended ⟨0, 0, 127, 200, 1, 0⟩).2.1 (Or.inl (by norm_num))⟩

/-- C3 counterexample: a sample whose color channels all equal 0.5 (no
channel exceeds 1) and whose Focus is 0.5 — in `[0, 1]` — still has its Focus
divided by 255 (line 550 applies unconditionally), contradicting the claim
that Focus passes through normalization unscaled alongside the colors. -/
theorem focus_normalization_cex :
    (decodeSampleColor ⟨0, 0, 1/2, 1/2, 1/2, 1/2⟩).2.2.2 = 1/510 ∧
    (1/510 : ℚ) ≠ 1/2 := by
  constructor
  · norm_num [decodeSampleColor, min_def, max_def]
  · norm_num

/-- The device-identification step of `LaserProtocol::ReceiveThread`
(`LaserProtocol.cpp:439-447`): the 32-bit `s_addr` holds the destination
address in network byte order, so memory byte `k` (little-endian indexing
`addrBytes[k]`) is the `k`-th dotted octet; if the first two octets are
239.255 the device index is the third octet, else -1. -/
def ExtractDeviceID (s_addr : ℕ) : ℤ :=
  if s_addr ≠ 0 then
    if s_addr % 256 = 239 ∧ s_addr / 256 % 256 = 255 then
      ((s_addr / 65536 % 256 : ℕ) : ℤ)
    else -1
  else -1

/-- C5: for every destination address `a.b.c.d`, device identification
returns `c` when `a.b = 239.255` and -1 otherwise; in particular
`239.255.5.12 ↦ 5` and `10.0.0.1 ↦ -1`. -/
theorem device_identification (a b c d : ℕ) (ha : a < 256) (hb : b < 256)
    (hc : c < 256) (hd : d < 256) :
    ExtractDeviceID (a + 256 * b + 65536 * c + 16777216 * d) =
      (if a = 239 ∧ b = 255 then (c : ℤ) else -1) ∧
    ExtractDeviceID (239 + 256 * 255 + 65536 * 5 + 16777216 * 12) = 5 ∧
    ExtractDeviceID (10 + 256 * 0 + 65536 * 0 + 16777216 * 1) = -1 := by
  refine ⟨?_, by decide, by decide⟩
  have h0 : (a + 256 * b + 65536 * c + 16777216 * d) % 256 = a := by omega
  have h1 : (a + 256 * b + 65536 * c + 16777216 * d) / 256 % 256 = b := by omega
  have h2 : (a + 256 * b + 65536 * c + 16777216 * d) / 65536 % 256 = c := by omega
  by_cases hz : a + 256 * b + 65536 * c + 16777216 * d = 0
  · rw [ExtractDeviceID, if_neg (by omega), if_neg (by rintro ⟨h239, -⟩; omega)]
  · rw [ExtractDeviceID, if_pos hz]
    by_cases hab : a = 239 ∧ b = 255
    · rw [if_pos ⟨by rw [h0]; exact hab.1, by rw [h1]; exact hab.2⟩, if_pos hab, h2]
    · rw [if_neg (fun hcon => hab ⟨by rw [← h0]; exact hcon.1,
        by rw [← h1]; exact hcon.2⟩), if_neg hab]

/-- Witness for C5 with octets 239.255.7.3 and the two spec examples. -/
theorem device_identification_witness :
    ((239 : ℕ) < 256 ∧ (255 : ℕ) < 256 ∧ (7 : ℕ) < 256 ∧ (3 : ℕ) < 256) ∧
    (ExtractDeviceID (239 + 256 * 255 + 65536 * 7 + 16777216 * 3) =
      (if 239 = 239 ∧ 255 = 255 then ((7 : ℕ) : ℤ) else -1) ∧
     ExtractDeviceID (239 + 256 * 255 + 65536 * 5 + 16777216 * 12) = 5 ∧
     ExtractDeviceID (10 + 256 * 0 + 65536 * 0 + 16777216 * 1) = -1) :=
  ⟨⟨by decide, by decide, by decide, by decide⟩,
   device_identification 239 255 7 3 (by decide) (by decide) (by decide) (by decide)⟩

/-- `LaserProtocol::ParsePacket` (`LaserProtocol.cpp:503-570`), modelled at
its decision level: fail on an empty payload or missing decoder functions;
only device hints in `[0, 4)` are queried; a decode with zero points or a
null data pointer fails.  The opaque decoder is a parameter `getData`
(`none` = null pointer); `settings` mirrors the unused `m_Settings` member
so that independence from `MaxDevices` is expressible. -/
def ParsePacket (hasReadFn hasGetFn : Bool) (length : ℕ) (extractedDeviceID : ℤ)
    (getData : ℤ → Option (List RawSample)) (settings : LaserSettings) :
    Option (ℤ × List LaserPoint) :=
  if length = 0 ∨ hasReadFn = false ∨ hasGetFn = false then none
  else if 0 ≤ extractedDeviceID ∧ extractedDeviceID < 4 then
    match getData extractedDeviceID with
    | some samples =>
      if 0 < samples.length then some (extractedDeviceID, ParsePoints samples)
      else none
    | none => none
  else none

/-- C9: whenever `ParsePacket` succeeds — which is exactly when
`ReceiveThread` (`LaserProtocol.cpp:479-485`) invokes the data callback —
the delivered device ID lies in `[0, 3]`, for every configuration including
`MaxDevices > 4`. -/
theorem callback_device_range (hasReadFn hasGetFn : Bool) (len : ℕ) (xid : ℤ)
    (getData : ℤ → Option (List RawSample)) (settings : LaserSettings)
    (d : ℤ) (pts : List LaserPoint)
    (h : ParsePacket hasReadFn hasGetFn len xid getData settings = some (d, pts)) :
    0 ≤ d ∧ d ≤ 3 := by
  rw [ParsePacket] at h
  split at h
  · exact absurd h (by simp)
  · split at h
    · rename_i h2
      split at h
      · split at h
        · rw [Option.some_inj, Prod.mk.injEq] at h
          obtain ⟨hd, -⟩ := h
          subst hd
          exact ⟨h2.1, by omega⟩
        · exact absurd h (by simp)
      · exact absurd h (by simp)
    · exact absurd h (by simp)

/-- Witness for C9: a successful parse with device hint 2 under a
configuration whose `MaxDevices` is 5. -/
theorem callback_device_range_witness :
    ParsePacket true true 10 2 (fun _ => some [⟨0,0,0,0,0,0⟩])
      ⟨5, true, QualityLevel.High, 10, 1/2, 1/2, 3, 16, false⟩ =
      some (2, ParsePoints [⟨0,0,0,0,0,0⟩]) ∧
    (0 ≤ (2 : ℤ) ∧ (2 : ℤ) ≤ 3) :=
  ⟨rfl,
   callback_device_range true true 10 2 (fun _ => some [⟨0,0,0,0,0,0⟩])
     ⟨5, true, QualityLevel.High, 10, 1/2, 1/2, 3, 16, false⟩ 2
     (ParsePoints [⟨0,0,0,0,0,0⟩]) rfl⟩

/-- `LaserSource::SmoothVector` (`LaserSource.cpp:360-365`): exponential
smoothing of the velocity vector toward the target. -/
def SmoothVector (current target : ℚ × ℚ) (smoothing : ℚ) : ℚ × ℚ :=
  (current.1 + (target.1 - current.1) * (1 - smoothing),
   current.2 + (target.2 - current.2) * (1 - smoothing))

/-- `LaserSource::InterpolatePoints` (`LaserSource.cpp:218-247`): for each
consecutive pair, `sampleCount` evenly spaced linear samples; the Z marker
interpolates only when the segment start has `Z > 0`, else is held at 0. -/
def InterpolatePoints (points : List LaserPoint) (sampleCount : ℕ) : List LaserPoint :=
  if points.length < 2 ∨ sampleCount ≤ 1 then points
  else
    (points.zip points.tail).bind (fun pr =>
      (List.range sampleCount).map (fun s =>
        let p0 := pr.1
        let p1 := pr.2
        let t : ℚ := (s : ℚ) / ((sampleCount : ℚ) - 1)
        { X := p0.X + (p1.X - p0.X) * t
          Y := p0.Y + (p1.Y - p0.Y) * t
          Z := if p0.Z > 0 then p0.Z + (p1.Z - p0.Z) * t else 0
          R := p0.R + (p1.R - p0.R) * t
          G := p0.G + (p1.G - p0.G) * t
          B := p0.B + (p1.B - p0.B) * t
          Focus := p0.Focus + (p1.Focus - p0.Focus) * t }))

/-- Loop state of the smoothing pass of `LaserSource::ApplyScannerSimulation`
(`LaserSource.cpp:154-204`). -/
structure ScanState where
  velX : ℚ
  velY : ℚ
  posX : ℚ
  posY : ℚ
  acc : List LaserPoint

/-- One iteration of the smoothing loop (`LaserSource.cpp:159-204`).
`sqrtFn` abstracts `std::sqrt`, the one primitive with no exact rational
counterpart; everything else follows the source line by line
(`0.2f = 1/5`, `0.01f = 1/100`, `0.5 = 1/2`). -/
def ScanStep (sqrtFn : ℚ → ℚ) (s : LaserSettings) (edgeFade : ℚ)
    (st : ScanState) (point : LaserPoint) : ScanState :=
  let targetVelX := point.X - st.posX
  let targetVelY := point.Y - st.posY
  let distance := sqrtFn (targetVelX * targetVelX + targetVelY * targetVelY)
  let next :=
    if distance > 0 then
      let v := SmoothVector (st.velX, st.velY) (targetVelX, targetVelY)
        s.VelocitySmoothing
      let stepSize := 100 / (s.SampleCount : ℚ) * (1/100)
      let posX := st.posX + v.1 * stepSize
      let posY := st.posY + v.2 * stepSize
      let velLength := sqrtFn (v.1 * v.1 + v.2 * v.2)
      let i1 := min 4 (1 / velLength * (1/5) * edgeFade * 2)
      let i2 := min 4 i1 / max 1 (edgeFade * 2 * 4)
      let fadePercent := max 0 (edgeFade - 1/2) * 2
      (v.1, v.2, posX, posY, i2 * (1 - fadePercent) + fadePercent)
    else (st.velX, st.velY, st.posX, st.posY, (1 : ℚ))
  let intensity := if point.Z > 0 then (1 : ℚ) else next.2.2.2.2
  let smoothedPoint := { point with X := next.2.2.1, Y := next.2.2.2.1 }
  let smoothedPoint := if point.Z = 0 then
      { smoothedPoint with
        R := smoothedPoint.R * intensity
        G := smoothedPoint.G * intensity
        B := smoothedPoint.B * intensity }
    else smoothedPoint
  { velX := next.1, velY := next.2.1, posX := next.2.2.1, posY := next.2.2.2.1,
    acc := st.acc ++ [smoothedPoint] }

/-- `LaserSource::ApplyScannerSimulation` (`LaserSource.cpp:139-207`):
interpolate, then run the smoothing loop seeded at the first interpolated
point with zero velocity. -/
def ApplyScannerSimulation (sqrtFn : ℚ → ℚ) (s : LaserSettings)
    (points : List LaserPoint) : List LaserPoint :=
  if points.length < 2 then points
  else
    let interpolated := InterpolatePoints points s.SampleCount
    let edgeFade := max (1/10) s.EdgeFade
    let first := interpolated.getD 0 default
    (interpolated.foldl (ScanStep sqrtFn s edgeFade)
      ⟨0, 0, first.X, first.Y, []⟩).acc

/-- The four point lists of one `LaserSource` device buffer
(`LaserSource.h:217-220`). -/
structure SourceState where
  RawPoints : List LaserPoint
  ProcessedPoints : List LaserPoint
  BeamPoints : List LaserPoint
  HotBeamPoints : List LaserPoint

/-- `LaserSource::SetPointList` (`LaserSource.cpp:51-65`): wholesale
replacement of the raw list. -/
def SetPointList (points : List LaserPoint) (st : SourceState) : SourceState :=
  { st with RawPoints := points }

/-- `LaserSource::UpdatePointList` (`LaserSource.cpp:73-129`): clear outputs
on an empty raw list; otherwise regenerate hot beams, and either run the
simulation pipeline with quality-dependent downsampling (raw length > 1 and
simulation enabled) or copy the raw list through, with optional dedup of the
processed stream when beam-brush is enabled. -/
def UpdatePointList (sqrtFn : ℚ → ℚ) (s : LaserSettings) (enableScannerSim : Bool)
    (st : SourceState) : SourceState :=
  if st.RawPoints = [] then
    { st with ProcessedPoints := [], BeamPoints := [], HotBeamPoints := [] }
  else
    let hot := GenerateHotBeams s.BeamRepeatThreshold s.BeamIntensityCount st.RawPoints
    if enableScannerSim = true ∧ 1 < st.RawPoints.length then
      let interpolated := ApplyScannerSimulation sqrtFn s st.RawPoints
      let factors : ℕ × ℕ :=
        match s.LaserQuality with
        | QualityLevel.Low => (8, 8)
        | QualityLevel.Medium => (4, 8)
        | QualityLevel.High => (2, 2)
        | QualityLevel.Ultra => (1, 1)
      let processed := DownsamplePoints interpolated factors.1
      let beam := DownsamplePoints interpolated factors.2
      let processed := if s.EnableBeamBrush = true then
          RemoveDuplicatePoints processed else processed
      { st with
        ProcessedPoints := processed
        BeamPoints := beam
        HotBeamPoints := hot }
    else
      let processed := st.RawPoints
      let beam := st.RawPoints
      let processed := if s.EnableBeamBrush = true then
          RemoveDuplicatePoints processed else processed
      { st with
        ProcessedPoints := processed
        BeamPoints := beam
        HotBeamPoints := hot }

/-- C8: a one-point raw list passes through unchanged — the processed and
beam lists both equal the raw list — for every settings configuration,
whether or not scanner simulation is enabled. -/
theorem single_point_passthrough (sqrtFn : ℚ → ℚ) (s : LaserSettings)
    (enableScannerSim : Bool) (p : LaserPoint) (st : SourceState)
    (hraw : st.RawPoints = [p]) :
    (UpdatePointList sqrtFn s enableScannerSim st).ProcessedPoints = [p] ∧
    (UpdatePointList sqrtFn s enableScannerSim st).BeamPoints = [p] := by
  have hrd : RemoveDuplicatePoints [p] = [p] := rfl
  rw [UpdatePointList, if_neg (by rw [hraw]; simp)]
  simp only [hraw]
  have hguard : ¬(enableScannerSim = true ∧ 1 < ([p] : List LaserPoint).length) := by
    rintro ⟨-, h⟩
    simp at h
  simp only [if_neg hguard, hrd]
  by_cases hbb : s.EnableBeamBrush = true
  · simp only [if_pos hbb, hrd]
    exact ⟨trivial, trivial⟩
  · simp only [if_neg hbb]
    exact ⟨trivial, trivial⟩

/-- Witness for C8 at a concrete one-point buffer under Ultra quality with
simulation and beam-brush enabled. -/
theorem single_point_passthrough_witness :
    (SourceState.mk [⟨3,4,0,1,0,0,1⟩] [] [] []).RawPoints = [⟨3,4,0,1,0,0,1⟩] ∧
    ((UpdatePointList id ⟨4, true, QualityLevel.Ultra, 10, 1/2, 1/2, 3, 16, true⟩
        true (SourceState.mk [⟨3,4,0,1,0,0,1⟩] [] [] [])).ProcessedPoints =
      [⟨3,4,0,1,0,0,1⟩] ∧
     (UpdatePointList id ⟨4, true, QualityLevel.Ultra, 10, 1/2, 1/2, 3, 16, true⟩
        true (SourceState.mk [⟨3,4,0,1,0,0,1⟩] [] [] [])).BeamPoints =
      [⟨3,4,0,1,0,0,1⟩]) :=
  ⟨rfl,
   single_point_passthrough id ⟨4, true, QualityLevel.Ultra, 10, 1/2, 1/2, 3, 16, true⟩
     true ⟨3,4,0,1,0,0,1⟩ (SourceState.mk [⟨3,4,0,1,0,0,1⟩] [] [] []) rfl⟩

/-- C10: a tick never writes the raw list — `UpdatePointList` preserves
`RawPoints` in every branch and on every configuration — while
`SetPointList` wholesale-replaces it. -/
theorem raw_points_invariant (sqrtFn : ℚ → ℚ) (s : LaserSettings)
    (enableScannerSim : Bool) (st : SourceState) (points : List LaserPoint) :
    (UpdatePointList sqrtFn s enableScannerSim st).RawPoints = st.RawPoints ∧
    (SetPointList points st).RawPoints = points := by
  refine ⟨?_, rfl⟩
  rw [UpdatePointList]
  by_cases h1 : st.RawPoints = []
  · rw [if_pos h1]
  · rw [if_neg h1]
    by_cases h2 : enableScannerSim = true ∧ 1 < st.RawPoints.length
    · simp only [if_pos h2]
    · simp only [if_neg h2]

end BeyondLink
